import Mathlib

/-
  Verification development for the tetris-sim simulation core.

  The definitions below are a shallow embedding of the TypeScript sources:
  - game/types.ts        (piece kinds, board constants, timing constants)
  - game/rules.ts        (board predicates, placement, line clearing, lock delay)
  - game/bag.ts          (SevenBag seven-bag randomizer)
  - game/input.ts        (StandardInputHandler DAS/ARR timing)
  - contexts/GameContext.tsx (gameReducer state machine)

  Number model: the input handler's accumulators are embedded as exact
  IEEE-754 binary64 values (an F64 type with round-to-nearest-even on
  every operation), because the DAS boundary in its frame scenario is
  decided within one unit in the last place; the reducer's lock-delay
  field, whose claims quantify over arbitrary elapsed times rather than
  rounding boundaries, is embedded as ℚ; grid coordinates and counters,
  which the program only ever holds as integers, are Nat/Int.  Randomness
  (Math.random in the bag's shuffle) is embedded as an explicit stream of
  index choices supplied to the state.
-/

namespace TetrisSim

/-- The seven piece kinds (game/types.ts: PieceType). -/
inductive PieceType where
  | I | O | T | S | Z | J | L
deriving DecidableEq, Repr, Inhabited

/-- A cell is empty (0) or carries a piece kind tag (game/types.ts: Cell). -/
abbrev Cell := Option PieceType

/-- A board is a list of rows, each row a list of cells (game/types.ts: Board). -/
abbrev Board := List (List Cell)

/-- An (x, y) grid position; x grows rightward, y grows downward
(game/types.ts: Position). -/
structure Position where
  x : Int
  y : Int
deriving DecidableEq, Repr

/-- An active piece: kind, position, rotation index, and the occupancy
matrix of the current rotation (game/types.ts: Piece). -/
structure Piece where
  type : PieceType
  position : Position
  rotation : Nat
  matrix : List (List Nat)
deriving DecidableEq, Repr

/-- game/types.ts: BOARD_WIDTH = 10. -/
def BOARD_WIDTH : Nat := 10
/-- game/types.ts: BOARD_HEIGHT = 20. -/
def BOARD_HEIGHT : Nat := 20
/-- game/types.ts: VISIBLE_HEIGHT = 20. -/
def VISIBLE_HEIGHT : Nat := 20
/-- game/types.ts: BUFFER_HEIGHT = 20. -/
def BUFFER_HEIGHT : Nat := 20
/-- game/types.ts: TOTAL_HEIGHT = VISIBLE_HEIGHT + BUFFER_HEIGHT = 40. -/
def TOTAL_HEIGHT : Nat := VISIBLE_HEIGHT + BUFFER_HEIGHT

/-- An empty row of BOARD_WIDTH cells. -/
def emptyRow : List Cell := List.replicate BOARD_WIDTH none

/-- game/rules.ts: createBoard — TOTAL_HEIGHT rows of BOARD_WIDTH zeros. -/
def createBoard : Board := List.replicate TOTAL_HEIGHT emptyRow

/-- Cell lookup used by the row/column accesses board[newY][newX]; callers
check 0 ≤ y < TOTAL_HEIGHT and 0 ≤ x < BOARD_WIDTH before the access. -/
def cellAt (board : Board) (y x : Int) : Cell :=
  (board.getD y.toNat []).getD x.toNat none

/-- game/rules.ts: isValidPosition — every occupied matrix cell must lie in
horizontal bounds, not exceed the bottom bound, and (when its row is within
the field, i.e. newY ≥ 0) not overlap a filled cell.  Rows above the board
(newY < 0) are unobstructed. -/
def isValidPosition (board : Board) (piece : Piece) (pos : Position) : Bool :=
  piece.matrix.enum.all fun rowPair =>
    rowPair.2.enum.all fun colPair =>
      if colPair.2 ≠ 0 then
        let newX : Int := pos.x + colPair.1
        let newY : Int := pos.y + rowPair.1
        if newX < 0 ∨ (BOARD_WIDTH : Int) ≤ newX ∨ (TOTAL_HEIGHT : Int) ≤ newY then
          false
        else if 0 ≤ newY ∧ cellAt board newY newX ≠ none then
          false
        else
          true
      else
        true

/-- Write one cell of the board (the newBoard[y][x] = type assignment). -/
def setCell (b : Board) (y x : Nat) (c : Cell) : Board :=
  b.set y ((b.getD y []).set x c)

/-- game/rules.ts: placePiece — stamp every occupied matrix cell that falls
inside the board with the piece's kind; value semantics. -/
def placePiece (board : Board) (piece : Piece) : Board :=
  piece.matrix.enum.foldl
    (fun b rowPair =>
      rowPair.2.enum.foldl
        (fun b2 colPair =>
          if colPair.2 ≠ 0 then
            let y : Int := piece.position.y + rowPair.1
            let x : Int := piece.position.x + colPair.1
            if 0 ≤ y ∧ y < (TOTAL_HEIGHT : Int) ∧ 0 ≤ x ∧ x < (BOARD_WIDTH : Int) then
              setCell b2 y.toNat x.toNat (some piece.type)
            else b2
          else b2)
        b)
    board

/-- A row is full when every cell is non-empty (board[row].every(cell ≠ 0)). -/
def isFullRow (r : List Cell) : Bool :=
  r.all fun c => c ≠ none

/-- The bottom-to-top scan of game/rules.ts: clearLines — full rows are
counted and dropped, other rows keep their order (each non-full row is
unshifted onto the result, so rows nearer the top end up in front). -/
def clearScan : Board → Board × Nat
  | [] => ([], 0)
  | r :: rest =>
    let p := clearScan rest
    if isFullRow r then (p.1, p.2 + 1) else (r :: p.1, p.2)

/-- game/rules.ts: clearLines — scan rows bottom-to-top, then unshift empty
rows at the top until the board is TOTAL_HEIGHT rows again. -/
def clearLines (board : Board) : Board × Nat :=
  let p := clearScan board
  (List.replicate (TOTAL_HEIGHT - p.1.length) emptyRow ++ p.1, p.2)

/-- The while-loop of game/rules.ts: getDropPosition, with explicit fuel.
The TS loop increments y while the next row down is valid; any piece with an
occupied cell becomes invalid once it passes the bottom bound, so
TOTAL_HEIGHT + 64 iterations cover every position the game produces. -/
def dropGo (board : Board) (piece : Piece) : Nat → Position → Position
  | 0, p => p
  | n + 1, p =>
    if isValidPosition board piece ⟨p.x, p.y + 1⟩ then
      dropGo board piece n ⟨p.x, p.y + 1⟩
    else p

/-- game/rules.ts: getDropPosition. -/
def getDropPosition (board : Board) (piece : Piece) : Position :=
  dropGo board piece (TOTAL_HEIGHT + 64) piece.position

/-- game/rules.ts: isGameOver — checks rows 0 .. BOARD_HEIGHT−1 (the hidden
buffer zone at the top of the grid, per the source comment) for any
non-empty cell. -/
def isGameOver (board : Board) : Bool :=
  (List.range BOARD_HEIGHT).any fun row =>
    (board.getD row []).any fun c => c ≠ none

/-- game/rules.ts: getVisibleBoard — board.slice(BOARD_HEIGHT, TOTAL_HEIGHT),
the bottom 20 rows. -/
def getVisibleBoard (board : Board) : Board :=
  (board.drop BOARD_HEIGHT).take (TOTAL_HEIGHT - BOARD_HEIGHT)

/-- game/bag.ts: the fixed kind order from which each bag is built
(allPieces = ['I','O','T','S','Z','J','L']). -/
def allPieces : List PieceType := [.I, .O, .T, .S, .Z, .J, .L]

/-- The destructuring swap [a[i], a[j]] = [a[j], a[i]] inside the
Fisher-Yates loop of game/bag.ts. -/
def swapAt (l : List PieceType) (i j : Nat) : List PieceType :=
  (l.set i (l.getD j .I)).set j (l.getD i .I)

/-- The Fisher-Yates loop of game/bag.ts: refillBag, with i counting down
from l.length − 1 to 1.  Each step consumes one random draw; reducing it
mod (i + 1) yields exactly the range [0, i] that
Math.floor(Math.random() * (i + 1)) produces. -/
def fyAux : Nat → List PieceType → List Nat → List PieceType
  | 0, l, _ => l
  | c + 1, l, js => fyAux c (swapAt l (c + 1) (js.headD 0 % (c + 2))) js.tail

/-- The full shuffle of one new bag (game/bag.ts: refillBag), parameterized
by the stream of random index draws. -/
def fisherYates (l : List PieceType) (js : List Nat) : List PieceType :=
  fyAux (l.length - 1) l js

/-- game/bag.ts: SevenBag state.  The queue of not-yet-dealt kinds, plus an
explicit randomness source: `rand k` supplies the index draws for the k-th
refill performed by this generator. -/
structure SevenBag where
  pieces : List PieceType
  rand : Nat → List Nat
  refills : Nat

/-- game/bag.ts: refillBag — push one freshly shuffled permutation of the 7
kinds onto the end of the queue. -/
def refillBag (s : SevenBag) : SevenBag :=
  { s with
    pieces := s.pieces ++ fisherYates allPieces (s.rand s.refills)
    refills := s.refills + 1 }

/-- game/bag.ts: the SevenBag constructor — an empty queue refilled once. -/
def mkSevenBag (rand : Nat → List Nat) : SevenBag :=
  refillBag ⟨[], rand, 0⟩

/-- game/bag.ts: next() — refill if the queue is empty, then shift the
front kind off the queue. -/
def bagNext (s : SevenBag) : PieceType × SevenBag :=
  let s' := if s.pieces.isEmpty then refillBag s else s
  (s'.pieces.headD .I, { s' with pieces := s'.pieces.tail })

/-- The while-loop of game/bag.ts: peek — refill until the queue holds at
least `count` kinds.  Fuel-based: each refill appends 7 kinds, so at most
`count` iterations are ever needed and the fuel never runs out. -/
def bagPeekGo : Nat → SevenBag → Nat → SevenBag
  | 0, s, _ => s
  | f + 1, s, count =>
    if s.pieces.length < count then bagPeekGo f (refillBag s) count else s

/-- game/bag.ts: peek(count) — extend the queue as needed and return the
first `count` kinds without consuming them. -/
def bagPeek (s : SevenBag) (count : Nat) : List PieceType × SevenBag :=
  let s' := bagPeekGo count s count
  (s'.pieces.take count, s')

/-- game/bag.ts: reset() — discard the queue and refill once. -/
def bagReset (s : SevenBag) : SevenBag :=
  refillBag { s with pieces := [] }

/-- One externally observable bag operation: a next() draw or a peek(n). -/
inductive BagOp where
  | nextOp
  | peekOp (n : Nat)

/-- Run a sequence of bag operations, collecting the kinds dealt by the
next() calls in order. -/
def runBag : SevenBag → List BagOp → List PieceType × SevenBag
  | s, [] => ([], s)
  | s, .nextOp :: ops =>
    let p := bagNext s
    let r := runBag p.2 ops
    (p.1 :: r.1, r.2)
  | s, .peekOp n :: ops => runBag (bagPeek s n).2 ops

/-- Modelled from the spec: the Piece Catalog's occupancy matrices
(game/srs.ts: PIECE_MATRICES is not under src/; its test file pins the
4-rotation layout, the 4×4 frames for I and O, the 3×3 frames for the
rest, and the concrete shapes of T and I at rotation 0, all of which agree
with the standard rotation system the spec names). -/
def pieceMatrix (t : PieceType) (r : Nat) : List (List Nat) :=
  match t, r % 4 with
  | .I, 0 => [[0,0,0,0],[1,1,1,1],[0,0,0,0],[0,0,0,0]]
  | .I, 1 => [[0,0,1,0],[0,0,1,0],[0,0,1,0],[0,0,1,0]]
  | .I, 2 => [[0,0,0,0],[0,0,0,0],[1,1,1,1],[0,0,0,0]]
  | .I, _ => [[0,1,0,0],[0,1,0,0],[0,1,0,0],[0,1,0,0]]
  | .O, _ => [[0,1,1,0],[0,1,1,0],[0,0,0,0],[0,0,0,0]]
  | .T, 0 => [[0,1,0],[1,1,1],[0,0,0]]
  | .T, 1 => [[0,1,0],[0,1,1],[0,1,0]]
  | .T, 2 => [[0,0,0],[1,1,1],[0,1,0]]
  | .T, _ => [[0,1,0],[1,1,0],[0,1,0]]
  | .S, 0 => [[0,1,1],[1,1,0],[0,0,0]]
  | .S, 1 => [[0,1,0],[0,1,1],[0,0,1]]
  | .S, 2 => [[0,0,0],[0,1,1],[1,1,0]]
  | .S, _ => [[1,0,0],[1,1,0],[0,1,0]]
  | .Z, 0 => [[1,1,0],[0,1,1],[0,0,0]]
  | .Z, 1 => [[0,0,1],[0,1,1],[0,1,0]]
  | .Z, 2 => [[0,0,0],[1,1,0],[0,1,1]]
  | .Z, _ => [[0,1,0],[1,1,0],[1,0,0]]
  | .J, 0 => [[1,0,0],[1,1,1],[0,0,0]]
  | .J, 1 => [[0,1,1],[0,1,0],[0,1,0]]
  | .J, 2 => [[0,0,0],[1,1,1],[0,0,1]]
  | .J, _ => [[0,1,0],[0,1,0],[1,1,0]]
  | .L, 0 => [[0,0,1],[1,1,1],[0,0,0]]
  | .L, 1 => [[0,1,0],[0,1,0],[0,1,1]]
  | .L, 2 => [[0,0,0],[1,1,1],[1,0,0]]
  | .L, _ => [[1,1,0],[0,1,0],[0,1,0]]

/-- Modelled from the spec: game/srs.ts: createPiece — a fresh piece at the
default spawn position (3, 19) with rotation 0 (position and rotation are
pinned by the srs test file). -/
def createPiece (t : PieceType) : Piece :=
  { type := t, position := ⟨3, 19⟩, rotation := 0, matrix := pieceMatrix t 0 }

/-- Modelled from the spec: game/srs.ts: rotatePiece — compute the target
rotation index (+1 mod 4 clockwise, −1 mod 4 counter-clockwise) and look up
the matrix for that index; the position is untouched (the function takes no
field argument, as its call sites and test show). -/
def rotatePiece (p : Piece) (clockwise : Bool) : Piece :=
  let target := if clockwise then (p.rotation + 1) % 4 else (p.rotation + 3) % 4
  { p with rotation := target, matrix := pieceMatrix p.type target }

/-- Modelled from the spec: game/srs.ts: getKickTable — the ordered SRS
wall-kick offset lists keyed by (kind, fromRotation, toRotation).  The
entries for JLSTZ 0↔1 and for I 0→1, 1→2 are pinned verbatim by the srs
test file; the rest follow the standard table the spec names.  O has the
trivial single identity offset, also pinned by the test. -/
def getKickTable (t : PieceType) (fromR toR : Nat) : List Position :=
  match t with
  | .O => [⟨0, 0⟩]
  | .I =>
    match fromR % 4, toR % 4 with
    | 0, 1 => [⟨0,0⟩, ⟨-2,0⟩, ⟨1,0⟩, ⟨-2,-1⟩, ⟨1,2⟩]
    | 1, 0 => [⟨0,0⟩, ⟨2,0⟩, ⟨-1,0⟩, ⟨2,1⟩, ⟨-1,-2⟩]
    | 1, 2 => [⟨0,0⟩, ⟨-1,0⟩, ⟨2,0⟩, ⟨-1,2⟩, ⟨2,-1⟩]
    | 2, 1 => [⟨0,0⟩, ⟨1,0⟩, ⟨-2,0⟩, ⟨1,-2⟩, ⟨-2,1⟩]
    | 2, 3 => [⟨0,0⟩, ⟨2,0⟩, ⟨-1,0⟩, ⟨2,1⟩, ⟨-1,-2⟩]
    | 3, 2 => [⟨0,0⟩, ⟨-2,0⟩, ⟨1,0⟩, ⟨-2,-1⟩, ⟨1,2⟩]
    | 3, 0 => [⟨0,0⟩, ⟨1,0⟩, ⟨-2,0⟩, ⟨1,-2⟩, ⟨-2,1⟩]
    | 0, 3 => [⟨0,0⟩, ⟨-1,0⟩, ⟨2,0⟩, ⟨-1,2⟩, ⟨2,-1⟩]
    | _, _ => [⟨0, 0⟩]
  | _ =>
    match fromR % 4, toR % 4 with
    | 0, 1 => [⟨0,0⟩, ⟨-1,0⟩, ⟨-1,1⟩, ⟨0,-2⟩, ⟨-1,-2⟩]
    | 1, 0 => [⟨0,0⟩, ⟨1,0⟩, ⟨1,-1⟩, ⟨0,2⟩, ⟨1,2⟩]
    | 1, 2 => [⟨0,0⟩, ⟨1,0⟩, ⟨1,-1⟩, ⟨0,2⟩, ⟨1,2⟩]
    | 2, 1 => [⟨0,0⟩, ⟨-1,0⟩, ⟨-1,1⟩, ⟨0,-2⟩, ⟨-1,-2⟩]
    | 2, 3 => [⟨0,0⟩, ⟨1,0⟩, ⟨1,1⟩, ⟨0,-2⟩, ⟨1,-2⟩]
    | 3, 2 => [⟨0,0⟩, ⟨-1,0⟩, ⟨-1,-1⟩, ⟨0,2⟩, ⟨-1,2⟩]
    | 3, 0 => [⟨0,0⟩, ⟨-1,0⟩, ⟨-1,-1⟩, ⟨0,2⟩, ⟨-1,2⟩]
    | 0, 3 => [⟨0,0⟩, ⟨1,0⟩, ⟨1,1⟩, ⟨0,-2⟩, ⟨1,-2⟩]
    | _, _ => [⟨0, 0⟩]

/-- The rotation attempt as the spec's Rotation Engine describes it (spec
§4.4): compute the target rotation, then walk the kick offset list for
(kind, from, to) in order, testing validity of the rotated piece at
position + offset; the first validating offset wins.  This is the
spec-side definition used to compare the spec's description against the
reducer's actual rotation handling. -/
def specRotate (board : Board) (p : Piece) (clockwise : Bool) : Option Piece :=
  let rp := rotatePiece p clockwise
  match (getKickTable p.type (p.rotation % 4) rp.rotation).find?
      (fun off => isValidPosition board rp ⟨p.position.x + off.x, p.position.y + off.y⟩) with
  | some off => some { rp with position := ⟨p.position.x + off.x, p.position.y + off.y⟩ }
  | none => none

/-- The spec's rotation algorithm restricted to the first entry of its kick
offset list — used to state what the reducer actually implements. -/
def specRotateFirstKick (board : Board) (p : Piece) (clockwise : Bool) : Option Piece :=
  let rp := rotatePiece p clockwise
  match ((getKickTable p.type (p.rotation % 4) rp.rotation).take 1).find?
      (fun off => isValidPosition board rp ⟨p.position.x + off.x, p.position.y + off.y⟩) with
  | some off => some { rp with position := ⟨p.position.x + off.x, p.position.y + off.y⟩ }
  | none => none

/-- Bit length of a natural number (fuel-bounded binary recursion; fuel 200
covers every quantity the binary64 model below produces). -/
def bitLenAux : Nat → Nat → Nat
  | 0, _ => 0
  | fuel + 1, n => if n = 0 then 0 else bitLenAux fuel (n / 2) + 1

/-- Bit length: number of binary digits of n (0 for 0). -/
def bitLen (n : Nat) : Nat := bitLenAux 200 n

/-- A nonnegative finite IEEE-754 binary64 value, the number type of the
input handler's accumulators in JavaScript: zero (m = 0), or a value
m · 2^e with normalized significand m ∈ [2^52, 2^53).  The handler's
quantities stay far from overflow and subnormal territory, so this
fragment models the doubles it holds exactly. -/
structure F64 where
  m : Nat
  e : Int
deriving DecidableEq, Repr

/-- The double 0. -/
def F64.zero : F64 := ⟨0, 0⟩

/-- Round an exact nonnegative integer significand at exponent e to 53
bits, nearest, ties to even — the binary64 rounding applied to the exact
result of every arithmetic operation below. -/
def normPos (m : Nat) (e : Int) : F64 :=
  if m = 0 then F64.zero
  else
    let b := bitLen m
    if b ≤ 53 then ⟨m <<< (53 - b), e - (53 - b)⟩
    else
      let k := b - 53
      let q := m >>> k
      let r := m % (1 <<< k)
      let half := 1 <<< (k - 1)
      let q2 := if half < r then q + 1 else if r < half then q
        else if q % 2 = 0 then q else q + 1
      if q2 = 1 <<< 53 then ⟨1 <<< 52, e + k + 1⟩ else ⟨q2, e + k⟩

/-- Double addition: the exact sum, rounded. -/
def F64.add (a b : F64) : F64 :=
  if a.m = 0 then b
  else if b.m = 0 then a
  else if b.e ≤ a.e then normPos (a.m <<< (a.e - b.e).toNat + b.m) b.e
  else normPos (b.m <<< (b.e - a.e).toNat + a.m) a.e

/-- Double subtraction for a ≥ b (the handler only ever subtracts an
earlier accumulator value from a later one): the exact difference,
rounded. -/
def F64.sub (a b : F64) : F64 :=
  if b.m = 0 then a
  else if b.e ≤ a.e then normPos (a.m <<< (a.e - b.e).toNat - b.m) b.e
  else normPos (a.m - b.m <<< (b.e - a.e).toNat) a.e

/-- Double multiplication: the exact product, rounded. -/
def F64.mul (a b : F64) : F64 :=
  if a.m = 0 ∨ b.m = 0 then F64.zero
  else normPos (a.m * b.m) (a.e + b.e)

/-- Double division (b ≠ 0): the exact quotient rounded to nearest, ties
to even, using the scaled integer quotient and its remainder as a sticky
bit. -/
def F64.div (a b : F64) : F64 :=
  if a.m = 0 ∨ b.m = 0 then F64.zero
  else
    let L := 53 + bitLen b.m
    let P := a.m <<< L
    let n := P / b.m
    let r := P % b.m
    let k := bitLen n - 53
    let q := n >>> k
    let rem := n % (1 <<< k)
    let half := 1 <<< (k - 1)
    let q2 :=
      if half < rem then q + 1
      else if rem < half then q
      else if r = 0 then (if q % 2 = 0 then q else q + 1) else q + 1
    let e2 : Int := a.e - b.e - L + k
    if q2 = 1 <<< 53 then ⟨1 <<< 52, e2 + 1⟩ else ⟨q2, e2⟩

/-- Double comparison a ≤ b on nonnegative values. -/
def F64.le (a b : F64) : Bool :=
  if a.e ≤ b.e then a.m ≤ b.m <<< (b.e - a.e).toNat
  else a.m <<< (a.e - b.e).toNat ≤ b.m

/-- The double holding a small natural number (exact for n < 2^53). -/
def F64.ofNat (n : Nat) : F64 := normPos n 0

/-- game/input.ts: per-key DAS/ARR bookkeeping (KeyTimings). -/
structure KeyTiming where
  heldTime : F64
  lastRepeat : F64
  initialPress : Bool
deriving DecidableEq, Repr

/-- game/types.ts: InputTimings (das and arr in frames, softDropSpeed in
cells per second). -/
structure InputTimings where
  das : F64
  arr : F64
  softDropSpeed : F64
deriving DecidableEq, Repr

/-- game/types.ts: INPUT_TIMINGS — das 10 frames, arr 2 frames, soft drop
20 cells per second. -/
def INPUT_TIMINGS : InputTimings := ⟨.ofNat 10, .ofNat 2, .ofNat 20⟩

/-- game/input.ts: InputState — the per-tick action pulse flags. -/
structure InputState where
  left : Bool
  right : Bool
  down : Bool
  hardDrop : Bool
  rotateClockwise : Bool
  rotateCounterclockwise : Bool
  hold : Bool
deriving DecidableEq, Repr

/-- The all-false pulse state. -/
def emptyInputState : InputState :=
  ⟨false, false, false, false, false, false, false⟩

/-- game/input.ts: StandardInputHandler state — the pulse flags plus the
keyTimings map, here one optional entry per repeatable action (the map only
ever holds the keys left, right and down). -/
structure StandardInputHandler where
  state : InputState
  timings : InputTimings
  leftTiming : Option KeyTiming
  rightTiming : Option KeyTiming
  downTiming : Option KeyTiming
deriving DecidableEq, Repr

/-- game/input.ts: the 60 fps frame duration, the double 1000 / 60
(16.666666666666668). -/
def frameTime : F64 := F64.div (.ofNat 1000) (.ofNat 60)

/-- game/input.ts: StandardInputHandler.updateMovementKey — advance one
movement key's held time and decide whether it pulses this tick: the first
update after a press always pulses; afterwards a pulse fires once heldTime
reaches das·frameTime and at least arr·frameTime has passed since the last
pulse (arr = 0 means every tick).  All arithmetic is binary64. -/
def updateMovementKey (timings : InputTimings) (deltaTime : F64) :
    Option KeyTiming → Option KeyTiming × Bool
  | none => (none, false)
  | some t0 =>
    let t := { t0 with heldTime := t0.heldTime.add deltaTime }
    if t.initialPress then
      (some { t with initialPress := false, lastRepeat := t.heldTime }, true)
    else if (timings.das.mul frameTime).le t.heldTime then
      let timeSinceLastRepeat := t.heldTime.sub t.lastRepeat
      let arrTime := timings.arr.mul frameTime
      if arrTime = F64.zero ∨ arrTime.le timeSinceLastRepeat then
        (some { t with lastRepeat := t.heldTime }, true)
      else (some t, false)
    else (some t, false)

/-- game/input.ts: StandardInputHandler.updateSoftDrop — like a movement
key but repeating every 1000 / softDropSpeed ms with no initial delay. -/
def updateSoftDrop (timings : InputTimings) (deltaTime : F64) :
    Option KeyTiming → Option KeyTiming × Bool
  | none => (none, false)
  | some t0 =>
    let t := { t0 with heldTime := t0.heldTime.add deltaTime }
    let dropInterval := (F64.ofNat 1000).div timings.softDropSpeed
    if t.initialPress then
      (some { t with initialPress := false, lastRepeat := t.heldTime }, true)
    else if dropInterval.le (t.heldTime.sub t.lastRepeat) then
      (some { t with lastRepeat := t.heldTime }, true)
    else (some t, false)

/-- game/input.ts: StandardInputHandler.update — clear the single-frame
flags, then run the DAS/ARR update for left and right and the soft-drop
update for down. -/
def handlerUpdate (h : StandardInputHandler) (deltaTime : F64) : StandardInputHandler :=
  let lp := updateMovementKey h.timings deltaTime h.leftTiming
  let rp := updateMovementKey h.timings deltaTime h.rightTiming
  let dp := updateSoftDrop h.timings deltaTime h.downTiming
  { h with
    state :=
      { left := lp.2, right := rp.2, down := dp.2
        hardDrop := false, rotateClockwise := false
        rotateCounterclockwise := false, hold := false }
    leftTiming := lp.1, rightTiming := rp.1, downTiming := dp.1 }

/-- The movement actions keyDown can arm (game/input.ts: normalizeKey maps
physical keys to these action names; the mapping itself is key-config
glue). -/
inductive MovementKey where
  | leftKey | rightKey | downKey
deriving DecidableEq, Repr

/-- game/input.ts: StandardInputHandler.keyDown for a movement action —
ignored if the key is already held, otherwise a fresh KeyTimings entry
with heldTime 0, lastRepeat 0 and initialPress true. -/
def handlerKeyDown (h : StandardInputHandler) (k : MovementKey) : StandardInputHandler :=
  let fresh : KeyTiming := ⟨F64.zero, F64.zero, true⟩
  match k with
  | .leftKey =>
    if h.leftTiming.isSome then h else { h with leftTiming := some fresh }
  | .rightKey =>
    if h.rightTiming.isSome then h else { h with rightTiming := some fresh }
  | .downKey =>
    if h.downTiming.isSome then h else { h with downTiming := some fresh }

/-- A fresh handler with the default timings (game/input.ts:
createInputHandler). -/
def createInputHandler : StandardInputHandler :=
  ⟨emptyInputState, INPUT_TIMINGS, none, none, none⟩

/-- game/rules.ts: StandardLockDelayManager state. -/
structure LockDelayState where
  timer : ℚ
  resets : Nat
  softDropLockTriggered : Bool
deriving DecidableEq, Repr

/-- game/rules.ts: maxResets = 15. -/
def maxResets : Nat := 15
/-- game/rules.ts: lockDelay threshold = 500 ms. -/
def lockDelayMs : ℚ := 500

/-- game/rules.ts: StandardLockDelayManager.reset — re-arm everything. -/
def lockDelayReset : LockDelayState :=
  ⟨0, 0, false⟩

/-- game/rules.ts: StandardLockDelayManager.update — airborne zeroes the
timer and reports false; grounded accumulates the elapsed time and reports
true once the timer reaches the threshold or the soft-drop instant-lock
flag is set. -/
def lockDelayUpdate (st : LockDelayState) (deltaTime : ℚ) (onGround : Bool) :
    LockDelayState × Bool :=
  if ¬onGround then
    ({ st with timer := 0 }, false)
  else
    let st' := { st with timer := st.timer + deltaTime }
    (st', decide (lockDelayMs ≤ st'.timer) || st'.softDropLockTriggered)

/-- game/rules.ts: StandardLockDelayManager.canReset. -/
def lockDelayCanReset (st : LockDelayState) : Bool :=
  st.resets < maxResets

/-- game/rules.ts: StandardLockDelayManager.performReset — zero the timer
and count the reset, but only while fewer than maxResets resets have been
spent. -/
def lockDelayPerformReset (st : LockDelayState) : LockDelayState :=
  if lockDelayCanReset st then
    { timer := 0, resets := st.resets + 1, softDropLockTriggered := false }
  else st

/-- Movement direction for MOVE_PIECE. -/
inductive Direction where
  | left | right
deriving DecidableEq, Repr

/-- contexts/GameContext.tsx: GameState (game/types.ts plus the
wasSoftDropping / isSoftDropping flags the reducer maintains). -/
structure GameState where
  board : Board
  currentPiece : Option Piece
  heldPiece : Option PieceType
  nextPieces : List PieceType
  score : Nat
  lines : Nat
  level : Nat
  isGameOver : Bool
  canHold : Bool
  lockDelay : ℚ
  softDropLockReset : Bool
  wasSoftDropping : Bool
  isSoftDropping : Bool
deriving DecidableEq, Repr

/-- contexts/GameContext.tsx: GameMove record kinds. -/
inductive MoveActionKind where
  | moveLeft | moveRight | rotateCW | rotateCCW | softDropMove | hardDropMove | holdMove
deriving DecidableEq, Repr

/-- contexts/GameContext.tsx: GameMove. -/
structure GameMove where
  action : MoveActionKind
  timestamp : ℚ
  boardState : Option String
  pieceType : Option PieceType
deriving DecidableEq, Repr

/-- contexts/GameContext.tsx: GameContextState.  The inputHandler field is
omitted: the reducer never reads or replaces it (every branch threads the
same handler object through unchanged). -/
structure GameContextState where
  gameState : GameState
  bag : SevenBag
  isPlaying : Bool
  isPersistenceReady : Bool
  currentMoveCount : Nat
  recordedMoves : List GameMove

/-- contexts/GameContext.tsx: GameAction.  RESET_GAME carries the
randomness stream of the fresh bag it constructs (the environmental
Math.random input of createBagGenerator). -/
inductive GameAction where
  | initializePersistence (payload : Bool)
  | startGame
  | pauseGame
  | resetGame (board : Option Board) (nextPieces : Option (List PieceType))
      (newRand : Nat → List Nat)
  | updateGame (deltaTime : ℚ)
  | movePiece (direction : Direction)
  | rotatePieceAct (clockwise : Bool)
  | dropPiece (hard : Bool)
  | softDropRelease
  | holdPiece
  | placePieceAt (x y : Int) (piece : Piece)
  | setBoard (board : Board)
  | recordMove (m : GameMove)
  | clearMoves
  | undoMove

/-- contexts/GameContext.tsx: the module-level initialBoard. -/
def initialBoard : Board := createBoard

/-- contexts/GameContext.tsx: createInitialState, parameterized by the
randomness stream of the initial bag. -/
def createInitialState (rand : Nat → List Nat) : GameContextState :=
  { gameState :=
      { board := initialBoard, currentPiece := none, heldPiece := none
        nextPieces := [], score := 0, lines := 0, level := 1
        isGameOver := false, canHold := true, lockDelay := 0
        softDropLockReset := false, wasSoftDropping := false
        isSoftDropping := false }
    bag := mkSevenBag rand
    isPlaying := false, isPersistenceReady := false
    currentMoveCount := 0, recordedMoves := [] }

/-- contexts/GameContext.tsx: gameReducer — the authoritative state
transition, translated branch by branch. -/
def gameReducer (state : GameContextState) (action : GameAction) : GameContextState :=
  match action with
  | .initializePersistence payload =>
    { state with isPersistenceReady := payload }
  | .startGame =>
    match state.gameState.currentPiece with
    | none =>
      let np := bagNext state.bag
      let piece := createPiece np.1
      let pk := bagPeek np.2 5
      { state with
        isPlaying := true
        bag := pk.2
        gameState :=
          { state.gameState with currentPiece := some piece, nextPieces := pk.1 } }
    | some _ => { state with isPlaying := true }
  | .pauseGame => { state with isPlaying := false }
  | .resetGame boardOpt nextOpt newRand =>
    let newBoard := boardOpt.getD createBoard
    let newBag := mkSevenBag newRand
    let pk : List PieceType × SevenBag :=
      match nextOpt with
      | some nexts => (nexts, newBag)
      | none => bagPeek newBag 5
    { state with
      gameState :=
        { board := newBoard, currentPiece := none, heldPiece := none
          nextPieces := pk.1, score := 0, lines := 0, level := 1
          isGameOver := false, canHold := true, lockDelay := 0
          softDropLockReset := false, wasSoftDropping := false
          isSoftDropping := false }
      bag := pk.2
      isPlaying := false
      currentMoveCount := 0
      recordedMoves := [] }
  | .movePiece direction =>
    match state.gameState.currentPiece with
    | none => state
    | some piece =>
      if state.isPlaying then
        let newX := piece.position.x + (match direction with | .left => -1 | .right => 1)
        let newPosition : Position := ⟨newX, piece.position.y⟩
        if isValidPosition state.gameState.board piece newPosition then
          { state with
            gameState :=
              { state.gameState with
                currentPiece := some { piece with position := newPosition } }
            currentMoveCount := state.currentMoveCount + 1 }
        else state
      else state
  | .rotatePieceAct clockwise =>
    match state.gameState.currentPiece with
    | none => state
    | some piece =>
      if state.isPlaying then
        let rotatedPiece := rotatePiece piece clockwise
        if isValidPosition state.gameState.board rotatedPiece rotatedPiece.position then
          { state with
            gameState :=
              { state.gameState with currentPiece := some rotatedPiece }
            currentMoveCount := state.currentMoveCount + 1 }
        else state
      else state
  | .dropPiece hard =>
    match state.gameState.currentPiece with
    | none => state
    | some piece =>
      if ¬state.isPlaying then state
      else if hard then
        let dropPosition := getDropPosition state.gameState.board piece
        let droppedPiece := { piece with position := dropPosition }
        let newBoard := placePiece state.gameState.board droppedPiece
        let cl := clearLines newBoard
        let np := bagNext state.bag
        let nextPiece := createPiece np.1
        let gameOver := !isValidPosition cl.1 nextPiece nextPiece.position
        let pk := bagPeek np.2 5
        { state with
          bag := pk.2
          gameState :=
            { state.gameState with
              board := cl.1
              currentPiece := if gameOver then none else some nextPiece
              nextPieces := pk.1
              lines := state.gameState.lines + cl.2
              score := state.gameState.score + cl.2 * 100 + 2
              canHold := true
              lockDelay := 0
              isGameOver := gameOver
              wasSoftDropping := false
              isSoftDropping := false }
          currentMoveCount := state.currentMoveCount + 1 }
      else
        let newPosition : Position := ⟨piece.position.x, piece.position.y + 1⟩
        if isValidPosition state.gameState.board piece newPosition then
          { state with
            gameState :=
              { state.gameState with
                currentPiece := some { piece with position := newPosition }
                lockDelay := 0
                isSoftDropping := true
                wasSoftDropping := state.gameState.isSoftDropping } }
        else if state.gameState.wasSoftDropping && !state.gameState.isSoftDropping then
          let newBoard := placePiece state.gameState.board piece
          let cl := clearLines newBoard
          let np := bagNext state.bag
          let nextPiece := createPiece np.1
          let gameOver := !isValidPosition cl.1 nextPiece nextPiece.position
          let pk := bagPeek np.2 5
          { state with
            bag := pk.2
            gameState :=
              { state.gameState with
                board := cl.1
                currentPiece := if gameOver then none else some nextPiece
                nextPieces := pk.1
                lines := state.gameState.lines + cl.2
                score := state.gameState.score + cl.2 * 100 + 1
                canHold := true
                lockDelay := 0
                isGameOver := gameOver
                wasSoftDropping := false
                isSoftDropping := false }
            currentMoveCount := state.currentMoveCount + 1 }
        else
          { state with
            gameState :=
              { state.gameState with
                isSoftDropping := true
                wasSoftDropping := state.gameState.isSoftDropping
                lockDelay := 500 } }
  | .softDropRelease =>
    { state with
      gameState :=
        { state.gameState with
          wasSoftDropping := state.gameState.isSoftDropping
          isSoftDropping := false } }
  | .holdPiece =>
    match state.gameState.currentPiece with
    | none => state
    | some piece =>
      if state.gameState.canHold && state.isPlaying then
        let nc : Piece × SevenBag :=
          match state.gameState.heldPiece with
          | some k => (createPiece k, state.bag)
          | none =>
            let np := bagNext state.bag
            (createPiece np.1, np.2)
        let pk := bagPeek nc.2 5
        { state with
          bag := pk.2
          gameState :=
            { state.gameState with
              currentPiece := some nc.1
              heldPiece := some piece.type
              canHold := false
              nextPieces := pk.1 }
          currentMoveCount := state.currentMoveCount + 1 }
      else state
  | .placePieceAt x y piece =>
    let newPosition : Position := ⟨x, y⟩
    if isValidPosition state.gameState.board piece newPosition then
      { state with
        gameState :=
          { state.gameState with
            board := placePiece state.gameState.board { piece with position := newPosition } } }
    else state
  | .setBoard board =>
    { state with gameState := { state.gameState with board := board } }
  | .recordMove m =>
    { state with recordedMoves := state.recordedMoves ++ [m] }
  | .clearMoves =>
    { state with recordedMoves := [], currentMoveCount := 0 }
  | .undoMove =>
    if state.recordedMoves.isEmpty then state
    else
      { state with
        recordedMoves := state.recordedMoves.dropLast
        currentMoveCount := state.currentMoveCount - 1 }
  | .updateGame deltaTime =>
    match state.gameState.currentPiece with
    | none => state
    | some piece =>
      if ¬state.isPlaying || state.gameState.isGameOver then state
      else
        let testPosition : Position := ⟨piece.position.x, piece.position.y + 1⟩
        let isGrounded := !isValidPosition state.gameState.board piece testPosition
        if isGrounded = true ∧ 0 < state.gameState.lockDelay then
          let newLockDelay := state.gameState.lockDelay + deltaTime
          if 500 ≤ newLockDelay then
            let newBoard := placePiece state.gameState.board piece
            let cl := clearLines newBoard
            let np := bagNext state.bag
            let nextPiece := createPiece np.1
            let gameOver := !isValidPosition cl.1 nextPiece nextPiece.position
            let pk := bagPeek np.2 5
            { state with
              bag := pk.2
              gameState :=
                { state.gameState with
                  board := cl.1
                  currentPiece := if gameOver then none else some nextPiece
                  nextPieces := pk.1
                  lines := state.gameState.lines + cl.2
                  score := state.gameState.score + cl.2 * 100
                  canHold := true
                  lockDelay := 0
                  isGameOver := gameOver } }
          else
            { state with
              gameState := { state.gameState with lockDelay := newLockDelay } }
        else state

/-! Derived definitions used by the statements below: concrete scenario
data, trace functions, and the queue invariant of the seven-bag. -/

/-- Build a board from a cell predicate (filled cells carry the I tag). -/
def mkBoard (f : Nat → Nat → Bool) : Board :=
  (List.range TOTAL_HEIGHT).map fun y =>
    (List.range BOARD_WIDTH).map fun x => if f y x then some .I else none

/-- A fixed randomness stream: every refill draws index 0 at every step,
shuffling [I,O,T,S,Z,J,L] into [O,T,S,Z,J,L,I]. -/
def zeroRand : Nat → List Nat := fun _ => []

/-- The seven-bag queue invariant: everything dealt so far followed by the
still-queued kinds is a concatenation of complete bags, each a permutation
of the 7 kinds. -/
def IsBagConcat (dealt : List PieceType) (s : SevenBag) : Prop :=
  ∃ blocks : List (List PieceType),
    (∀ b ∈ blocks, b.Perm allPieces) ∧ dealt ++ s.pieces = blocks.flatten

/-- A board empty except for one filled cell at row 39, column 4. -/
def boardC1 : Board := mkBoard fun y x => y = 39 && x = 4

/-- A T piece at (3, 37), rotation 0, resting just above the filled cell of
boardC1. -/
def pieceC1 : Piece :=
  { type := .T, position := ⟨3, 37⟩, rotation := 0, matrix := pieceMatrix .T 0 }

/-- A playing state holding boardC1 and pieceC1. -/
def stateC1 : GameContextState :=
  { gameState :=
      { board := boardC1, currentPiece := some pieceC1, heldPiece := none
        nextPieces := [], score := 0, lines := 0, level := 1
        isGameOver := false, canHold := true, lockDelay := 0
        softDropLockReset := false, wasSoftDropping := false
        isSoftDropping := false }
    bag := mkSevenBag zeroRand
    isPlaying := true, isPersistenceReady := false
    currentMoveCount := 0, recordedMoves := [] }

/-- A board with one filled cell in the visible region (row 25). -/
def boardVisibleBlock : Board := mkBoard fun y x => y = 25 && x = 3

/-- A board with one filled cell in the hidden buffer region (row 5). -/
def boardBufferBlock : Board := mkBoard fun y x => y = 5 && x = 3

/-- A T piece at (3, 38), rotation 0, grounded on the floor of an empty
board. -/
def pieceC6 : Piece :=
  { type := .T, position := ⟨3, 38⟩, rotation := 0, matrix := pieceMatrix .T 0 }

/-- A playing state with pieceC6 grounded on an empty board and a zero
lock-delay accumulator. -/
def stateC6 : GameContextState :=
  { stateC1 with
    gameState :=
      { stateC1.gameState with board := createBoard, currentPiece := some pieceC6 } }

/-- stateC6 with the lock-delay accumulator at 250 ms. -/
def stateC6m : GameContextState :=
  { stateC6 with gameState := { stateC6.gameState with lockDelay := 250 } }

/-- stateC6 mid-way through a continuous soft-drop hold (isSoftDropping
set). -/
def stateC5b : GameContextState :=
  { stateC6 with gameState := { stateC6.gameState with isSoftDropping := true } }

/-- A board whose columns 4 and 5 are filled from row 21 down — a hard
drop from spawn grounds immediately and the next spawn overlaps. -/
def boardC10 : Board := mkBoard fun y x => 21 ≤ y && (x = 4 || x = 5)

/-- The game-over scenario trace: reset onto boardC10. -/
def st1 : GameContextState :=
  gameReducer (createInitialState zeroRand) (.resetGame (some boardC10) none zeroRand)

/-- The game-over scenario trace: start (spawns an O piece). -/
def st2 : GameContextState := gameReducer st1 .startGame

/-- The game-over scenario trace: hard drop — the O locks at spawn and the
next spawn is blocked, setting the game-over flag. -/
def st3 : GameContextState := gameReducer st2 (.dropPiece true)

/-- The game-over scenario trace: START_GAME again after game over — it
spawns a fresh piece while the game-over flag is still set. -/
def st4 : GameContextState := gameReducer st3 .startGame

/-- The game-over scenario trace: a hold performed after game over. -/
def st5 : GameContextState := gameReducer st4 .holdPiece

/-- Iterated soft-drop pulses (repeated DROP_PIECE soft dispatches of a
continuous hold). -/
def softDropPulses (s : GameContextState) : Nat → GameContextState
  | 0 => s
  | n + 1 => gameReducer (softDropPulses s n) (.dropPiece false)

/-- Repeated grounded lock-delay-manager updates; the boolean is the lock
decision of the last update. -/
def lockDelayRun : LockDelayState → List ℚ → LockDelayState × Bool
  | st, [] => (st, false)
  | st, [d] => lockDelayUpdate st d true
  | st, d :: rest => lockDelayRun (lockDelayUpdate st d true).1 rest

/-- Scenario B trace: a left-key press followed by per-frame updates of
1000 / 60 ms each. -/
def traceHandler : Nat → StandardInputHandler
  | 0 => handlerKeyDown createInputHandler .leftKey
  | n + 1 => handlerUpdate (traceHandler n) frameTime

/-- Whether the held left key pulses at frame i (the state reported by the
(i+1)-th update after the press; frame 0 is the first update). -/
def leftPulseAt (i : Nat) : Bool := (traceHandler (i + 1)).state.left

/-! Helper lemmas shared by several claim theorems. -/

/-- Every kick list of the catalog starts with the zero offset (spec §8). -/
theorem kickTable_take_one (t : PieceType) (r r' : Nat) :
    (getKickTable t r r').take 1 = [⟨0, 0⟩] := by
  rcases (show r % 4 = 0 ∨ r % 4 = 1 ∨ r % 4 = 2 ∨ r % 4 = 3 by omega) with h | h | h | h <;>
    rcases (show r' % 4 = 0 ∨ r' % 4 = 1 ∨ r' % 4 = 2 ∨ r' % 4 = 3 by omega) with
      h' | h' | h' | h' <;>
    cases t <;> simp [getKickTable, h, h']

/-- Rotation never moves the piece (rotatePiece has no field argument). -/
theorem rotatePiece_position (p : Piece) (cw : Bool) :
    (rotatePiece p cw).position = p.position := rfl

/-- The bottom-to-top clear scan is a filter on the full-row test, with the
cleared count the number of full rows. -/
theorem clearScan_eq (b : Board) :
    clearScan b
      = (b.filter (fun r => !isFullRow r), (b.filter (fun r => isFullRow r)).length) := by
  induction b with
  | nil => rfl
  | cons r rest ih =>
    by_cases h : isFullRow r <;> simp [clearScan, ih, h, List.filter_cons]

/-- C1, counterexample: the claim says a rotation attempt walks the kick
offset list and adopts the first validating offset.  In stateC1 the spec's
kick algorithm succeeds at the second offset (−1, 0), moving the T piece to
(2, 37) at rotation 1, yet the reducer's ROTATE_PIECE leaves the state
completely unchanged: the reducer never consults the kick table. -/
theorem c1_rotation_kicks_counterexample :
    specRotate stateC1.gameState.board pieceC1 true
      = some { type := .T, position := ⟨2, 37⟩, rotation := 1, matrix := pieceMatrix .T 1 }
    ∧ gameReducer stateC1 (.rotatePieceAct true) = stateC1
    ∧ stateC1.gameState.currentPiece = some pieceC1
    ∧ stateC1.isPlaying = true :=
  ⟨by decide, rfl, rfl, rfl⟩

/-- C1, amended: a rotation attempt computes the target rotation index
(current ± 1 mod 4) but tests validity only at the piece's unchanged
position — equivalently, it tries only the first (zero) entry of the kick
offset list, whose head is always the zero offset; on success the piece
adopts the new rotation at the same position, otherwise the whole state is
unchanged.  The later kick offsets are never consulted. -/
theorem c1_rotation_zero_kick_only (s : GameContextState) (p : Piece) (cw : Bool)
    (hp : s.gameState.currentPiece = some p) (hpl : s.isPlaying = true) :
    (gameReducer s (.rotatePieceAct cw)
      = (match specRotateFirstKick s.gameState.board p cw with
         | some rp =>
           { s with
             gameState := { s.gameState with currentPiece := some rp }
             currentMoveCount := s.currentMoveCount + 1 }
         | none => s))
    ∧ ∀ (t : PieceType) (r r' : Nat), (getKickTable t r r').headD ⟨0, 0⟩ = ⟨0, 0⟩ := by
  constructor
  · have hkick := kickTable_take_one p.type (p.rotation % 4) (rotatePiece p cw).rotation
    simp only [gameReducer, hp, hpl, if_true, specRotateFirstKick, hkick, List.find?]
    by_cases hv :
        isValidPosition s.gameState.board (rotatePiece p cw) (rotatePiece p cw).position
    · have hv2 : isValidPosition s.gameState.board (rotatePiece p cw)
          ⟨p.position.x, p.position.y⟩ = true := hv
      simp [hv2]
      rw [if_pos hv]
      rfl
    · have hv2 : isValidPosition s.gameState.board (rotatePiece p cw)
          ⟨p.position.x, p.position.y⟩ = false := by
        simpa using hv
      simp [hv2, hv]
  · intro t r r'
    have h := kickTable_take_one t r r'
    cases hl : getKickTable t r r' with
    | nil => simp [hl] at h
    | cons a tl =>
      rw [hl] at h
      simp at h
      simp [h]

/-- C1, witness: the amended rotation equation applied at stateC1. -/
theorem c1_rotation_zero_kick_only_witness :
    stateC1.gameState.currentPiece = some pieceC1
    ∧ stateC1.isPlaying = true
    ∧ gameReducer stateC1 (.rotatePieceAct true)
      = (match specRotateFirstKick stateC1.gameState.board pieceC1 true with
         | some rp =>
           { stateC1 with
             gameState := { stateC1.gameState with currentPiece := some rp }
             currentMoveCount := stateC1.currentMoveCount + 1 }
         | none => stateC1) :=
  ⟨rfl, rfl, (c1_rotation_zero_kick_only stateC1 pieceC1 true rfl rfl).1⟩

/-- C3: clearLines removes a row iff every cell is non-empty, keeps the
relative order of the surviving rows (they form the filter of the input),
injects empty rows at the top to restore the height, reports the number of
full rows, and acts as the identity with count zero when no row is full. -/
theorem c3_clearLines_correct (board : Board) (h : board.length = TOTAL_HEIGHT) :
    ((clearLines board).1 =
        List.replicate (TOTAL_HEIGHT - (board.filter (fun r => !isFullRow r)).length) emptyRow
          ++ board.filter (fun r => !isFullRow r))
    ∧ (clearLines board).2 = (board.filter (fun r => isFullRow r)).length
    ∧ (clearLines board).1.length = TOTAL_HEIGHT
    ∧ (∀ r : List Cell, isFullRow r = true ↔ ∀ c ∈ r, c ≠ none)
    ∧ ((∀ r ∈ board, isFullRow r = false) → clearLines board = (board, 0)) := by
  refine ⟨?_, ?_, ?_, ?_, ?_⟩
  · simp [clearLines, clearScan_eq]
  · simp [clearLines, clearScan_eq]
  · have hle : (board.filter (fun r => !isFullRow r)).length ≤ board.length :=
      List.length_filter_le _ _
    simp [clearLines, clearScan_eq]
    omega
  · intro r
    simp [isFullRow, List.all_eq_true]
  · intro hall
    have hfe : board.filter (fun r => !isFullRow r) = board := by
      rw [List.filter_eq_self]
      intro a ha
      simp [hall a ha]
    have hfn : board.filter (fun r => isFullRow r) = [] := by
      rw [List.filter_eq_nil_iff]
      intro a ha
      simp [hall a ha]
    simp [clearLines, clearScan_eq, hfe, hfn, h]

/-- C3, witness: the clearLines characterization applied to a concrete
board (boardC10, which has no full rows). -/
theorem c3_clearLines_correct_witness :
    boardC10.length = TOTAL_HEIGHT ∧ clearLines boardC10 = (boardC10, 0) :=
  ⟨by decide, (c3_clearLines_correct boardC10 (by decide)).2.2.2.2 (by decide)⟩

/-- C4, counterexample: the claim says isGameOver is true iff a cell of the
visible region (rows 20–39, the slice returned by getVisibleBoard) is
occupied.  A board with a single block in the visible region (row 25)
yields isGameOver = false, and a board with a single block in the hidden
buffer (row 5) yields isGameOver = true with an entirely empty visible
region — the function inspects rows 0–19, not the visible slice. -/
theorem c4_isGameOver_counterexample :
    isGameOver boardVisibleBlock = false
    ∧ (getVisibleBoard boardVisibleBlock).any (fun r => r.any fun c => c ≠ none) = true
    ∧ isGameOver boardBufferBlock = true
    ∧ (getVisibleBoard boardBufferBlock).any (fun r => r.any fun c => c ≠ none) = false := by
  decide

/-- C4, amended: isGameOver(board) is true iff at least one cell of the
hidden buffer region — rows 0 .. BOARD_HEIGHT−1, the rows above the
visible slice — is occupied; getVisibleBoard returns the complementary
rows BOARD_HEIGHT .. TOTAL_HEIGHT−1. -/
theorem c4_isGameOver_buffer_region (board : Board) :
    (isGameOver board = true ↔ ∃ y < BOARD_HEIGHT, ∃ c ∈ board.getD y [], c ≠ none)
    ∧ (board.length = TOTAL_HEIGHT → getVisibleBoard board = board.drop BOARD_HEIGHT) := by
  constructor
  · simp [isGameOver, List.any_eq_true, List.mem_range]
  · intro h
    have hlen : (board.drop BOARD_HEIGHT).length ≤ TOTAL_HEIGHT - BOARD_HEIGHT := by
      simp [h]
    simp [getVisibleBoard, List.take_of_length_le hlen]

/-- C4, witness: the buffer-region characterization applied to
boardBufferBlock. -/
theorem c4_isGameOver_buffer_region_witness :
    boardBufferBlock.length = TOTAL_HEIGHT
    ∧ getVisibleBoard boardBufferBlock = boardBufferBlock.drop BOARD_HEIGHT
    ∧ (isGameOver boardBufferBlock = true
        ↔ ∃ y < BOARD_HEIGHT, ∃ c ∈ boardBufferBlock.getD y [], c ≠ none) :=
  ⟨by decide, (c4_isGameOver_buffer_region boardBufferBlock).2 (by decide),
    (c4_isGameOver_buffer_region boardBufferBlock).1⟩

/-- One soft-drop pulse on a grounded piece outside the release-then-
re-press condition only marks the soft-drop flags and arms the lockDelay
field; nothing else changes. -/
theorem softdrop_grounded_step (s : GameContextState) (p : Piece)
    (hp : s.gameState.currentPiece = some p) (hpl : s.isPlaying = true)
    (hg : isValidPosition s.gameState.board p ⟨p.position.x, p.position.y + 1⟩ = false)
    (hno : ¬(s.gameState.wasSoftDropping = true ∧ s.gameState.isSoftDropping = false)) :
    gameReducer s (.dropPiece false)
      = { s with
          gameState :=
            { s.gameState with
              isSoftDropping := true
              wasSoftDropping := s.gameState.isSoftDropping
              lockDelay := 500 } } := by
  have hcond : (s.gameState.wasSoftDropping && !s.gameState.isSoftDropping) = false := by
    cases hw : s.gameState.wasSoftDropping <;> cases hi : s.gameState.isSoftDropping <;>
      simp_all
  simp [gameReducer, hp, hpl, hg, hcond]

/-- Iterated soft-drop pulses of a continuous hold on a grounded piece keep
the board, the piece, the playing flag, and the non-release condition
invariant; from the first pulse on the lockDelay field reads 500. -/
theorem softdrop_pulses_inv (s : GameContextState) (p : Piece)
    (hp : s.gameState.currentPiece = some p) (hpl : s.isPlaying = true)
    (hg : isValidPosition s.gameState.board p ⟨p.position.x, p.position.y + 1⟩ = false)
    (hno : ¬(s.gameState.wasSoftDropping = true ∧ s.gameState.isSoftDropping = false)) :
    ∀ n, (softDropPulses s n).gameState.board = s.gameState.board
      ∧ (softDropPulses s n).gameState.currentPiece = some p
      ∧ (softDropPulses s n).isPlaying = true
      ∧ ¬((softDropPulses s n).gameState.wasSoftDropping = true
          ∧ (softDropPulses s n).gameState.isSoftDropping = false)
      ∧ (1 ≤ n → (softDropPulses s n).gameState.lockDelay = 500) := by
  intro n
  induction n with
  | zero => exact ⟨rfl, hp, hpl, hno, by omega⟩
  | succ m ih =>
    obtain ⟨hb, hcp, hpl2, hno2, _⟩ := ih
    have hg2 : isValidPosition (softDropPulses s m).gameState.board p
        ⟨p.position.x, p.position.y + 1⟩ = false := by rw [hb]; exact hg
    have hstep := softdrop_grounded_step (softDropPulses s m) p hcp hpl2 hg2 hno2
    refine ⟨?_, ?_, ?_, ?_, ?_⟩ <;>
      simp [softDropPulses, hstep, hb, hcp, hpl2]

/-- C5: on a grounded piece, any number of soft-drop pulses from a
continuous hold (a state outside the released-while-held condition) never
commits — the board and piece survive every pulse and the pulses only arm
the lock-delay field at 500 — whereas a release followed by a fresh
soft-drop press while still grounded commits immediately: the piece is
stamped into the field, full rows are cleared, the counters advance with
the soft-drop bonus, hold is re-enabled, and the next piece spawns (or the
game-over flag is set when the spawn is blocked). -/
theorem c5_soft_drop_lock_semantics (s : GameContextState) (p : Piece)
    (hp : s.gameState.currentPiece = some p) (hpl : s.isPlaying = true)
    (hg : isValidPosition s.gameState.board p ⟨p.position.x, p.position.y + 1⟩ = false) :
    ((¬(s.gameState.wasSoftDropping = true ∧ s.gameState.isSoftDropping = false)) →
      ∀ n, (softDropPulses s n).gameState.board = s.gameState.board
        ∧ (softDropPulses s n).gameState.currentPiece = some p
        ∧ (1 ≤ n → (softDropPulses s n).gameState.lockDelay = 500))
    ∧ (s.gameState.isSoftDropping = true →
        (gameReducer (gameReducer s .softDropRelease) (.dropPiece false)).gameState.board
          = (clearLines (placePiece s.gameState.board p)).1
        ∧ (gameReducer (gameReducer s .softDropRelease) (.dropPiece false)).gameState.canHold
            = true
        ∧ (gameReducer (gameReducer s .softDropRelease) (.dropPiece false)).gameState.lockDelay
            = 0
        ∧ (gameReducer (gameReducer s .softDropRelease) (.dropPiece false)).gameState.lines
            = s.gameState.lines + (clearLines (placePiece s.gameState.board p)).2
        ∧ (gameReducer (gameReducer s .softDropRelease) (.dropPiece false)).gameState.score
            = s.gameState.score + (clearLines (placePiece s.gameState.board p)).2 * 100 + 1
        ∧ (gameReducer (gameReducer s .softDropRelease) (.dropPiece false)).gameState.isGameOver
            = !isValidPosition (clearLines (placePiece s.gameState.board p)).1
                (createPiece (bagNext s.bag).1) (createPiece (bagNext s.bag).1).position
        ∧ (gameReducer (gameReducer s .softDropRelease) (.dropPiece false)).gameState.currentPiece
            = (if !isValidPosition (clearLines (placePiece s.gameState.board p)).1
                  (createPiece (bagNext s.bag).1) (createPiece (bagNext s.bag).1).position
               then none else some (createPiece (bagNext s.bag).1))) := by
  constructor
  · intro hno n
    obtain ⟨h1, h2, _, _, h5⟩ := softdrop_pulses_inv s p hp hpl hg hno n
    exact ⟨h1, h2, h5⟩
  · intro hsd
    have h1 : gameReducer s .softDropRelease
        = { s with
            gameState :=
              { s.gameState with
                wasSoftDropping := s.gameState.isSoftDropping
                isSoftDropping := false } } := rfl
    rw [h1]
    simp [gameReducer, hp, hpl, hg, hsd]

/-- C5, witness: the continuous-hold and release-re-press halves applied at
the grounded states stateC6 and stateC5b. -/
theorem c5_soft_drop_lock_semantics_witness :
    stateC6.gameState.currentPiece = some pieceC6
    ∧ isValidPosition stateC6.gameState.board pieceC6
        ⟨pieceC6.position.x, pieceC6.position.y + 1⟩ = false
    ∧ (softDropPulses stateC6 3).gameState.currentPiece = some pieceC6
    ∧ (softDropPulses stateC6 3).gameState.lockDelay = 500
    ∧ (gameReducer (gameReducer stateC5b .softDropRelease) (.dropPiece false)).gameState.board
        = (clearLines (placePiece stateC5b.gameState.board pieceC6)).1 :=
  ⟨rfl, by decide,
    ((c5_soft_drop_lock_semantics stateC6 pieceC6 rfl rfl (by decide)).1 (by decide) 3).2.1,
    ((c5_soft_drop_lock_semantics stateC6 pieceC6 rfl rfl (by decide)).1 (by decide) 3).2.2
      (by omega),
    ((c5_soft_drop_lock_semantics stateC5b pieceC6 rfl rfl (by decide)).2 rfl).1⟩

/-- The last grounded lock-delay-manager update reports a lock as soon as
the accumulated grounded time reaches the 500 ms threshold. -/
theorem lockDelayRun_locks (dts : List ℚ) :
    ∀ st : LockDelayState, dts ≠ [] → lockDelayMs ≤ st.timer + dts.sum →
      (lockDelayRun st dts).2 = true := by
  induction dts with
  | nil => intro st h _; exact absurd rfl h
  | cons d rest ih =>
    intro st _ hsum
    cases rest with
    | nil =>
      simp only [lockDelayRun, lockDelayUpdate, if_neg (by simp : ¬¬true = true)]
      simp only [List.sum_cons, List.sum_nil, add_zero] at hsum
      simp [hsum]
    | cons e es =>
      have hne : (e :: es) ≠ [] := by simp
      have hred : (lockDelayUpdate st d true).1 = { st with timer := st.timer + d } := by
        simp [lockDelayUpdate]
      have := ih ((lockDelayUpdate st d true).1) hne (by
        rw [hred]
        simp only [List.sum_cons] at hsum ⊢
        linarith)
      simpa [lockDelayRun] using this

/-- C6, counterexample: the claim says a grounded piece commits once 500 ms
of update time accumulate and that a valid lateral move resets the
accumulator to 0.  In stateC6 the T piece is grounded with lockDelay 0, yet
a single 500 ms UPDATE_GAME leaves the state untouched (no commit ever
happens from a zero accumulator), and in stateC6m a valid move right leaves
the 250 ms accumulator at 250, not 0. -/
theorem c6_lock_delay_counterexample :
    gameReducer stateC6 (.updateGame 500) = stateC6
    ∧ isValidPosition stateC6.gameState.board pieceC6
        ⟨pieceC6.position.x, pieceC6.position.y + 1⟩ = false
    ∧ stateC6.gameState.lockDelay = 0
    ∧ (gameReducer stateC6m (.movePiece .right)).gameState.currentPiece
        = some { pieceC6 with position := ⟨4, 38⟩ }
    ∧ (gameReducer stateC6m (.movePiece .right)).gameState.lockDelay = 250 :=
  ⟨rfl, by decide, rfl, by decide, rfl⟩

/-- C6, amended: the 500 ms / 15-reset policy lives in
StandardLockDelayManager — whose grounded updates accumulate elapsed time
and lock at 500 ms, and whose performReset zeroes the timer exactly while
fewer than 15 resets have been spent — but the reducer does not use that
manager: UPDATE_GAME leaves a grounded piece with a zero lock-delay field
untouched no matter how much time passes, and MOVE_PIECE never changes the
lock-delay field at all. -/
theorem c6_lock_delay_amended :
    (∀ dts : List ℚ, dts ≠ [] → lockDelayMs ≤ dts.sum →
      (lockDelayRun lockDelayReset dts).2 = true)
    ∧ (∀ st : LockDelayState, st.resets < maxResets →
        lockDelayPerformReset st = ⟨0, st.resets + 1, false⟩)
    ∧ (∀ st : LockDelayState, maxResets ≤ st.resets → lockDelayPerformReset st = st)
    ∧ (∀ (s : GameContextState) (p : Piece) (dt : ℚ),
        s.gameState.currentPiece = some p → s.isPlaying = true →
        s.gameState.isGameOver = false →
        isValidPosition s.gameState.board p ⟨p.position.x, p.position.y + 1⟩ = false →
        s.gameState.lockDelay = 0 →
        gameReducer s (.updateGame dt) = s)
    ∧ (∀ (s : GameContextState) (d : Direction),
        (gameReducer s (.movePiece d)).gameState.lockDelay = s.gameState.lockDelay) := by
  refine ⟨?_, ?_, ?_, ?_, ?_⟩
  · intro dts hne hsum
    exact lockDelayRun_locks dts lockDelayReset hne (by simpa [lockDelayReset] using hsum)
  · intro st h
    simp [lockDelayPerformReset, lockDelayCanReset, h]
  · intro st h
    simp [lockDelayPerformReset, lockDelayCanReset, Nat.not_lt.mpr h]
  · intro s p dt hp hpl hgo hg hld
    simp [gameReducer, hp, hpl, hgo, hg, hld]
  · intro s d
    cases hcp : s.gameState.currentPiece with
    | none => simp [gameReducer, hcp]
    | some p =>
      cases hpl : s.isPlaying with
      | false => simp [gameReducer, hcp, hpl]
      | true =>
        by_cases hv : isValidPosition s.gameState.board p
            ⟨p.position.x + (match d with | .left => -1 | .right => 1), p.position.y⟩ <;>
          simp [gameReducer, hcp, hpl, hv]

/-- C6, witness: the amended conjuncts applied at concrete inputs — a
single 500 ms grounded manager update locks, a first reset zeroes the
timer, a 15-spent state ignores further resets, and UPDATE_GAME on the
grounded stateC6 is a no-op. -/
theorem c6_lock_delay_amended_witness :
    (lockDelayRun lockDelayReset [500]).2 = true
    ∧ lockDelayPerformReset ⟨123, 0, false⟩ = ⟨0, 1, false⟩
    ∧ lockDelayPerformReset ⟨123, 15, false⟩ = ⟨123, 15, false⟩
    ∧ gameReducer stateC6 (.updateGame 500) = stateC6 :=
  ⟨(c6_lock_delay_amended).1 [500] (by simp) (by simp [lockDelayMs]),
    (c6_lock_delay_amended).2.1 ⟨123, 0, false⟩ (by simp [maxResets]),
    (c6_lock_delay_amended).2.2.1 ⟨123, 15, false⟩ (by simp [maxResets]),
    (c6_lock_delay_amended).2.2.2.1 stateC6 pieceC6 500 rfl rfl rfl (by decide) rfl⟩

/-- C9: the hold action returns the entire state unchanged when hold was
already used since the last lock (canHold false) or there is no active
piece; when the guard passes, the held slot receives the previous active
piece's kind, the new active piece is created from the previously held
kind (or drawn from the sequencer when the slot was empty), canHold
becomes false, and the lock-delay accumulator is left unchanged. -/
theorem c9_hold_semantics (s : GameContextState) :
    ((s.gameState.canHold = false ∨ s.gameState.currentPiece = none) →
      gameReducer s .holdPiece = s)
    ∧ (∀ p, s.gameState.currentPiece = some p → s.gameState.canHold = true →
        s.isPlaying = true →
        (gameReducer s .holdPiece).gameState.heldPiece = some p.type
        ∧ (gameReducer s .holdPiece).gameState.canHold = false
        ∧ (gameReducer s .holdPiece).gameState.lockDelay = s.gameState.lockDelay
        ∧ (∀ k, s.gameState.heldPiece = some k →
            (gameReducer s .holdPiece).gameState.currentPiece = some (createPiece k))
        ∧ (s.gameState.heldPiece = none →
            (gameReducer s .holdPiece).gameState.currentPiece
              = some (createPiece (bagNext s.bag).1))) := by
  constructor
  · rintro (h | h)
    · cases hcp : s.gameState.currentPiece with
      | none => simp [gameReducer, hcp]
      | some p => simp [gameReducer, hcp, h]
    · simp [gameReducer, h]
  · intro p hp hch hpl
    cases hheld : s.gameState.heldPiece with
    | none => simp [gameReducer, hp, hch, hpl, hheld]
    | some k => simp [gameReducer, hp, hch, hpl, hheld]

/-- C9, witness: the accepted-hold facts at stateC1 (empty held slot) and
the refusal at the same state with canHold cleared. -/
theorem c9_hold_semantics_witness :
    stateC1.gameState.currentPiece = some pieceC1
    ∧ stateC1.gameState.canHold = true
    ∧ stateC1.isPlaying = true
    ∧ (gameReducer stateC1 .holdPiece).gameState.heldPiece = some PieceType.T
    ∧ (gameReducer stateC1 .holdPiece).gameState.currentPiece
        = some (createPiece (bagNext stateC1.bag).1)
    ∧ gameReducer
        { stateC1 with gameState := { stateC1.gameState with canHold := false } }
        .holdPiece
      = { stateC1 with gameState := { stateC1.gameState with canHold := false } } :=
  ⟨rfl, rfl, rfl,
    ((c9_hold_semantics stateC1).2 pieceC1 rfl rfl rfl).1,
    ((c9_hold_semantics stateC1).2 pieceC1 rfl rfl rfl).2.2.2.2 rfl,
    (c9_hold_semantics _).1 (Or.inl rfl)⟩

set_option maxRecDepth 100000 in
/-- C7, counterexample: the claim pins a pulse at frame 12.  Under the
exact binary64 arithmetic of the program, frame 12 is silent: at frame 12
the time since the frame-10 repeat is still one update short of the ARR
interval as rounded in doubles, and the next repeat falls at frame 13.
Frames 0 and 10 pulse and frame 9 stays silent (the frame-9 held time is
one unit in the last place below the DAS threshold 10 · (1000/60)),
exactly as the repository's own input test records — that test skips
frame 12, noting the implementation differs there. -/
theorem c7_das_arr_counterexample :
    leftPulseAt 12 = false
    ∧ leftPulseAt 0 = true
    ∧ leftPulseAt 9 = false
    ∧ leftPulseAt 10 = true
    ∧ leftPulseAt 11 = false := by
  decide

set_option maxRecDepth 100000 in
/-- C7, amended: with auto-repeat delay 10 frames, interval 2 frames, and
one update per frame of the binary64 value 1000/60 ms, a held left-move
key pulses at frame 0 (the first update after the press), produces no
pulses at frames 1 through 9, pulses at frame 10, produces no pulse at
frames 11 and 12 — contrary to the claim's pulse at frame 12 — and next
pulses at frame 13. -/
theorem c7_das_arr_double_pattern :
    leftPulseAt 0 = true
    ∧ leftPulseAt 1 = false
    ∧ leftPulseAt 2 = false
    ∧ leftPulseAt 3 = false
    ∧ leftPulseAt 4 = false
    ∧ leftPulseAt 5 = false
    ∧ leftPulseAt 6 = false
    ∧ leftPulseAt 7 = false
    ∧ leftPulseAt 8 = false
    ∧ leftPulseAt 9 = false
    ∧ leftPulseAt 10 = true
    ∧ leftPulseAt 11 = false
    ∧ leftPulseAt 12 = false
    ∧ leftPulseAt 13 = true := by
  decide

/-- Every reducer transition that turns the game-over flag on also nulls
the active piece: the three commit branches choose `none` exactly when they
set the flag, and no other branch can raise it. -/
theorem gameOver_step_clears_piece (s : GameContextState) (a : GameAction)
    (h1 : s.gameState.isGameOver = false)
    (h2 : (gameReducer s a).gameState.isGameOver = true) :
    (gameReducer s a).gameState.currentPiece = none := by
  cases a with
  | initializePersistence p => simp [gameReducer, h1] at h2
  | startGame =>
    cases hcp : s.gameState.currentPiece <;> simp [gameReducer, hcp, h1] at h2
  | pauseGame => simp [gameReducer, h1] at h2
  | resetGame b n r =>
    simp only [gameReducer] at h2
    simp at h2
  | softDropRelease => simp [gameReducer, h1] at h2
  | holdPiece =>
    cases hcp : s.gameState.currentPiece with
    | none => simp [gameReducer, hcp, h1] at h2
    | some p =>
      by_cases hg : (s.gameState.canHold && s.isPlaying) = true
      · cases hheld : s.gameState.heldPiece <;>
          simp [gameReducer, hcp, hg, hheld, h1] at h2
      · simp [gameReducer, hcp, hg, h1] at h2
  | placePieceAt x y p =>
    by_cases hv : isValidPosition s.gameState.board p ⟨x, y⟩ = true <;>
      simp [gameReducer, hv, h1] at h2
  | setBoard b => simp [gameReducer, h1] at h2
  | recordMove m => simp [gameReducer, h1] at h2
  | clearMoves => simp [gameReducer, h1] at h2
  | undoMove =>
    by_cases he : s.recordedMoves.isEmpty = true <;> simp [gameReducer, he, h1] at h2
  | movePiece d =>
    cases hcp : s.gameState.currentPiece with
    | none => simp [gameReducer, hcp, h1] at h2
    | some p =>
      by_cases hpl : s.isPlaying = true
      · cases d with
        | left =>
          by_cases hv : isValidPosition s.gameState.board p
              ⟨p.position.x + -1, p.position.y⟩ = true <;>
            simp [gameReducer, hcp, hpl, hv, h1] at h2
        | right =>
          by_cases hv : isValidPosition s.gameState.board p
              ⟨p.position.x + 1, p.position.y⟩ = true <;>
            simp [gameReducer, hcp, hpl, hv, h1] at h2
      · simp [gameReducer, hcp, hpl, h1] at h2
  | rotatePieceAct cw =>
    cases hcp : s.gameState.currentPiece with
    | none => simp [gameReducer, hcp, h1] at h2
    | some p =>
      by_cases hpl : s.isPlaying = true
      · by_cases hv : isValidPosition s.gameState.board (rotatePiece p cw)
            (rotatePiece p cw).position = true <;>
          simp [gameReducer, hcp, hpl, hv, h1] at h2
      · simp [gameReducer, hcp, hpl, h1] at h2
  | dropPiece hard =>
    cases hcp : s.gameState.currentPiece with
    | none => simp [gameReducer, hcp, h1] at h2
    | some p =>
      by_cases hpl : s.isPlaying = true
      · cases hard with
        | true =>
          simp only [gameReducer, hcp] at h2 ⊢
          simp only [hpl] at h2 ⊢
          simp at h2 ⊢
          simp [h2]
        | false =>
          by_cases hv : isValidPosition s.gameState.board p
              ⟨p.position.x, p.position.y + 1⟩ = true
          · simp [gameReducer, hcp, hpl, hv, h1] at h2
          · by_cases hlk : (s.gameState.wasSoftDropping && !s.gameState.isSoftDropping) = true
            · simp only [gameReducer, hcp] at h2 ⊢
              simp only [hpl] at h2 ⊢
              simp [hv, hlk] at h2 ⊢
              simp [h2]
            · simp [gameReducer, hcp, hpl, hv, hlk, h1] at h2
      · simp [gameReducer, hcp, hpl, h1] at h2
  | updateGame dt =>
    cases hcp : s.gameState.currentPiece with
    | none => simp [gameReducer, hcp, h1] at h2
    | some p =>
      by_cases hpl : s.isPlaying = true
      · by_cases hgr : isValidPosition s.gameState.board p
            ⟨p.position.x, p.position.y + 1⟩ = false ∧ 0 < s.gameState.lockDelay
        · by_cases hex : (500 : ℚ) ≤ s.gameState.lockDelay + dt
          · simp only [gameReducer, hcp] at h2 ⊢
            simp only [hpl, h1] at h2 ⊢
            simp [hgr, hex] at h2 ⊢
            simp [h2]
          · simp [gameReducer, hcp, hpl, h1, hgr, hex] at h2
        · simp [gameReducer, hcp, hpl, h1, hgr] at h2
      · simp [gameReducer, hcp, hpl, h1] at h2

/-- C10, counterexample: the claim is that isGameOver = true forces a null
active piece in every reachable state and that the game actions are then
no-ops until a reset.  The trace st1–st5 is reachable from the initial
state (reset onto boardC10, start, hard drop); it does set the flag with a
null piece (st3), but a further START_GAME — which is not a reset — spawns
a new piece while isGameOver stays true (st4), after which HOLD_PIECE
mutates the state again (st5 stores kind S in the held slot). -/
theorem c10_game_over_counterexample :
    st3.gameState.isGameOver = true
    ∧ st3.gameState.currentPiece = none
    ∧ st4.gameState.isGameOver = true
    ∧ st4.gameState.currentPiece = some (createPiece .S)
    ∧ st4.gameState.heldPiece = none
    ∧ st5.gameState.heldPiece = some PieceType.S :=
  ⟨by decide, by decide, by decide, by decide, by decide, by decide⟩

/-- C10, amended: every transition that raises the game-over flag also
nulls the active piece, and whenever the active piece is null the
movement, rotation, drop, hold and per-tick update actions return the
state unchanged; the invariant claimed for all reachable states fails only
because START_GAME (which is not a reset) can respawn a piece while the
game-over flag is still set. -/
theorem c10_game_over_amended :
    (∀ (s : GameContextState) (a : GameAction),
        s.gameState.isGameOver = false →
        (gameReducer s a).gameState.isGameOver = true →
        (gameReducer s a).gameState.currentPiece = none)
    ∧ (∀ s : GameContextState, s.gameState.currentPiece = none →
        (∀ d, gameReducer s (.movePiece d) = s)
        ∧ (∀ cw, gameReducer s (.rotatePieceAct cw) = s)
        ∧ (∀ h, gameReducer s (.dropPiece h) = s)
        ∧ gameReducer s .holdPiece = s
        ∧ (∀ dt, gameReducer s (.updateGame dt) = s)) := by
  constructor
  · exact gameOver_step_clears_piece
  · intro s h
    refine ⟨?_, ?_, ?_, ?_, ?_⟩ <;> intros <;> simp [gameReducer, h]

/-- C10, witness: the amended statements applied along the concrete trace —
the hard drop from st2 raises the flag and nulls the piece, and on st3
(null piece) a move is a no-op. -/
theorem c10_game_over_amended_witness :
    st2.gameState.isGameOver = false
    ∧ (gameReducer st2 (.dropPiece true)).gameState.isGameOver = true
    ∧ (gameReducer st2 (.dropPiece true)).gameState.currentPiece = none
    ∧ st3.gameState.currentPiece = none
    ∧ gameReducer st3 (.movePiece Direction.left) = st3 :=
  ⟨by decide, by decide,
    c10_game_over_amended.1 st2 (.dropPiece true) (by decide) (by decide),
    by decide,
    (c10_game_over_amended.2 st3 (by decide)).1 Direction.left⟩

/-- Defaulted list indexing is independent of the default inside range. -/
theorem getD_irrel {α : Type} (l : List α) (n : Nat) (d d' : α) (h : n < l.length) :
    l.getD n d = l.getD n d' := by
  simp [List.getD_eq_getElem?_getD, List.getElem?_eq_getElem h]

/-- Writing one in-range position exchanges its old element for the new one
in the multiset of the list, stated additively over counts. -/
theorem count_set_add {α : Type} [DecidableEq α] (l : List α) (n : Nat) (a x d : α)
    (h : n < l.length) :
    (l.set n a).count x + (if l.getD n d = x then 1 else 0)
      = l.count x + (if a = x then 1 else 0) := by
  induction l generalizing n with
  | nil => simp at h
  | cons b t ih =>
    cases n with
    | zero =>
      simp only [List.set_cons_zero, List.getD_cons_zero, List.count_cons]
      by_cases hb : b = x <;> by_cases ha : a = x <;> simp [hb, ha] <;> omega
    | succ m =>
      have hm : m < t.length := by simpa using h
      have := ih m hm
      simp only [List.set_cons_succ, List.getD_cons_succ, List.count_cons,
        List.getD_eq_getElem?_getD] at this ⊢
      by_cases hb : b = x <;> simp [hb] <;> omega

/-- One Fisher-Yates swap is a permutation of the list. -/
theorem swapAt_perm (l : List PieceType) (i j : Nat) (hi : i < l.length) (hj : j < l.length) :
    (swapAt l i j).Perm l := by
  rw [List.perm_iff_count]
  intro x
  have hj2 : j < (l.set i (l.getD j .I)).length := by simpa using hj
  have hsame : ∀ d : PieceType, (l.set i (l.getD j .I)).getD j d = l.getD j PieceType.I := by
    intro d
    rcases eq_or_ne i j with rfl | hne
    · simp [List.getD_eq_getElem?_getD, List.getElem?_set, hi]
    · rw [List.getD_eq_getElem?_getD, List.getElem?_set, if_neg hne,
        ← List.getD_eq_getElem?_getD]
      exact getD_irrel l j d PieceType.I hj
  have e1 := count_set_add (l.set i (l.getD j .I)) j (l.getD i .I) x PieceType.I hj2
  have e2 := count_set_add l i (l.getD j .I) x PieceType.I hi
  rw [hsame] at e1
  unfold swapAt
  omega

/-- The Fisher-Yates loop preserves the list length. -/
theorem fyAux_length (c : Nat) : ∀ (l : List PieceType) (js : List Nat),
    (fyAux c l js).length = l.length := by
  induction c with
  | zero => intro l js; rfl
  | succ m ih =>
    intro l js
    rw [fyAux, ih]
    simp [swapAt]

/-- The Fisher-Yates loop permutes its input, for every randomness. -/
theorem fyAux_perm (c : Nat) : ∀ (l : List PieceType) (js : List Nat), c < l.length →
    (fyAux c l js).Perm l := by
  induction c with
  | zero => intro l js _; exact List.Perm.refl _
  | succ m ih =>
    intro l js h
    have hj : (js.headD 0 % (m + 2)) < l.length := by
      have : js.headD 0 % (m + 2) < m + 2 := Nat.mod_lt _ (by omega)
      omega
    have hswap := swapAt_perm l (m + 1) (js.headD 0 % (m + 2)) h hj
    have hlen : m < (swapAt l (m + 1) (js.headD 0 % (m + 2))).length := by
      simp [swapAt]
      omega
    exact (ih _ js.tail hlen).trans hswap

/-- Every shuffled bag is a permutation of the 7 kinds. -/
theorem fisherYates_perm (js : List Nat) : (fisherYates allPieces js).Perm allPieces := by
  have : allPieces.length - 1 < allPieces.length := by simp [allPieces]
  exact fyAux_perm _ _ _ this

/-- Every shuffled bag holds exactly 7 kinds. -/
theorem fisherYates_length (js : List Nat) : (fisherYates allPieces js).length = 7 :=
  (fisherYates_perm js).length_eq

/-- refillBag appends the freshly shuffled bag to the queue. -/
theorem refillBag_pieces (s : SevenBag) :
    (refillBag s).pieces = s.pieces ++ fisherYates allPieces (s.rand s.refills) := rfl

/-- refillBag grows the queue by exactly 7. -/
theorem refillBag_length (s : SevenBag) :
    (refillBag s).pieces.length = s.pieces.length + 7 := by
  simp [refillBag_pieces, fisherYates_length]

/-- A refill preserves the complete-bags queue invariant. -/
theorem isBagConcat_refill (dealt : List PieceType) (s : SevenBag)
    (h : IsBagConcat dealt s) : IsBagConcat dealt (refillBag s) := by
  obtain ⟨blocks, hperm, heq⟩ := h
  refine ⟨blocks ++ [fisherYates allPieces (s.rand s.refills)], ?_, ?_⟩
  · intro b hb
    rcases List.mem_append.1 hb with hb | hb
    · exact hperm b hb
    · simp at hb
      rw [hb]
      exact fisherYates_perm _
  · rw [refillBag_pieces, List.flatten_append, ← List.append_assoc, heq]
    simp

/-- A fresh SevenBag satisfies the invariant with nothing dealt. -/
theorem isBagConcat_mk (rand : Nat → List Nat) : IsBagConcat [] (mkSevenBag rand) :=
  isBagConcat_refill [] ⟨[], rand, 0⟩ ⟨[], by simp, by simp⟩

/-- A reset bag satisfies the invariant with nothing dealt. -/
theorem isBagConcat_reset (s : SevenBag) : IsBagConcat [] (bagReset s) :=
  isBagConcat_refill [] { s with pieces := [] } ⟨[], by simp, by simp⟩

/-- Dealing the next kind preserves the invariant, with the dealt kind
appended to the dealt prefix. -/
theorem isBagConcat_next (dealt : List PieceType) (s : SevenBag)
    (h : IsBagConcat dealt s) :
    IsBagConcat (dealt ++ [(bagNext s).1]) (bagNext s).2 := by
  have hdef : bagNext s
      = ((if s.pieces.isEmpty then refillBag s else s).pieces.headD .I,
          { (if s.pieces.isEmpty then refillBag s else s) with
            pieces := (if s.pieces.isEmpty then refillBag s else s).pieces.tail }) := rfl
  rw [hdef]
  set s' := if s.pieces.isEmpty then refillBag s else s with hs'
  have h' : IsBagConcat dealt s' := by
    rw [hs']
    split
    · exact isBagConcat_refill dealt s h
    · exact h
  have hne : s'.pieces ≠ [] := by
    rw [hs']
    split
    case isTrue hemp =>
      have : (refillBag s).pieces.length = s.pieces.length + 7 := refillBag_length s
      intro hnil
      rw [hnil] at this
      simp at this
    case isFalse hemp =>
      simpa [List.isEmpty_iff] using hemp
  obtain ⟨blocks, hperm, heq⟩ := h'
  cases hp : s'.pieces with
  | nil => exact absurd hp hne
  | cons a t =>
    refine ⟨blocks, hperm, ?_⟩
    rw [hp] at heq
    simp [hp, List.append_assoc]
    simpa using heq

/-- The peek refill loop preserves the invariant. -/
theorem isBagConcat_peekGo (f count : Nat) : ∀ (dealt : List PieceType) (s : SevenBag),
    IsBagConcat dealt s → IsBagConcat dealt (bagPeekGo f s count) := by
  induction f with
  | zero => intro dealt s h; exact h
  | succ m ih =>
    intro dealt s h
    rw [bagPeekGo]
    split
    · exact ih dealt _ (isBagConcat_refill dealt s h)
    · exact h

/-- Any run of next/peek operations preserves the invariant, extending the
dealt prefix by exactly the kinds the nexts returned. -/
theorem isBagConcat_run (ops : List BagOp) : ∀ (dealt : List PieceType) (s : SevenBag),
    IsBagConcat dealt s →
    IsBagConcat (dealt ++ (runBag s ops).1) (runBag s ops).2 := by
  induction ops with
  | nil => intro dealt s h; simpa [runBag] using h
  | cons op rest ih =>
    intro dealt s h
    cases op with
    | nextOp =>
      have h1 := isBagConcat_next dealt s h
      have h2 := ih (dealt ++ [(bagNext s).1]) (bagNext s).2 h1
      simpa [runBag, List.append_assoc] using h2
    | peekOp n =>
      have h1 := isBagConcat_peekGo n n dealt s h
      have h2 := ih dealt (bagPeekGo n s n) h1
      simpa [runBag, bagPeek] using h2

/-- A concatenation of 7-element blocks has length 7 times the block
count. -/
theorem flatten_length7 (blocks : List (List PieceType))
    (h7 : ∀ b ∈ blocks, b.length = 7) : blocks.flatten.length = 7 * blocks.length := by
  induction blocks with
  | nil => simp
  | cons b bs ih =>
    have hb := h7 b (by simp)
    have hbs := ih fun c hc => h7 c (by simp [hc])
    simp [hb, hbs]
    ring

/-- Dropping then taking inside the first operand of an append ignores the
second operand. -/
theorem prefix_drop_take {α : Type} (l1 l2 : List α) (n m : Nat) (h : n + m ≤ l1.length) :
    ((l1 ++ l2).drop n).take m = (l1.drop n).take m := by
  rw [List.drop_append_of_le_length (by omega)]
  exact List.take_append_of_le_length (by simp; omega)

/-- The k-th aligned 7-window of a concatenation of 7-blocks is the k-th
block. -/
theorem flatten_drop_take (blocks : List (List PieceType))
    (h7 : ∀ b ∈ blocks, b.length = 7) :
    ∀ k, k < blocks.length → (blocks.flatten.drop (7 * k)).take 7 = blocks.getD k [] := by
  induction blocks with
  | nil => intro k hk; simp at hk
  | cons b bs ih =>
    intro k hk
    cases k with
    | zero =>
      have hb := h7 b (by simp)
      simp only [List.flatten_cons, Nat.mul_zero, List.drop_zero, List.getD_cons_zero]
      exact List.take_left' hb
    | succ m =>
      have hb := h7 b (by simp)
      have hm : m < bs.length := by simpa using hk
      have hstep : (b :: bs).flatten.drop (7 * (m + 1)) = bs.flatten.drop (7 * m) := by
        have : 7 * (m + 1) = b.length + 7 * m := by omega
        rw [this, List.flatten_cons, List.drop_append]
      rw [hstep, List.getD_cons_succ]
      exact ih (fun c hc => h7 c (by simp [hc])) m hm

/-- From any state satisfying the fresh invariant, every aligned 7-window
of the dealt stream is a permutation of the 7 kinds. -/
theorem run_block_perm (s : SevenBag) (hs : IsBagConcat [] s) (ops : List BagOp) (k : Nat)
    (hlen : 7 * (k + 1) ≤ (runBag s ops).1.length) :
    (((runBag s ops).1.drop (7 * k)).take 7).Perm allPieces := by
  have hrun := isBagConcat_run ops [] s hs
  simp only [List.nil_append] at hrun
  obtain ⟨blocks, hperm, heq⟩ := hrun
  have h7 : ∀ b ∈ blocks, b.length = 7 := fun b hb =>
    ((hperm b hb).length_eq).trans (by simp [allPieces])
  have hflat : blocks.flatten.length = 7 * blocks.length := flatten_length7 blocks h7
  have hlen2 : (runBag s ops).1.length ≤ blocks.flatten.length := by
    rw [← heq]
    simp
  have hk : k < blocks.length := by omega
  have hpre : ((runBag s ops).1.drop (7 * k)).take 7
      = (blocks.flatten.drop (7 * k)).take 7 := by
    rw [← heq]
    exact (prefix_drop_take _ _ _ _ (by omega)).symm
  rw [hpre, flatten_drop_take blocks h7 k hk]
  have hmem : blocks.getD k [] ∈ blocks := by
    rw [List.getD_eq_getElem?_getD, List.getElem?_eq_getElem hk]
    exact List.getElem_mem hk
  exact hperm _ hmem

/-- C2: for every randomness and every sequence of next/peek operations on
a SevenBag since construction (and likewise since the last reset), every
consecutive run of 7 dealt kinds starting at a multiple of 7 is a
permutation of the 7 kinds — no kind repeats, none is absent — and a
refill only ever appends one shuffled permutation of all 7 kinds to the
queue, discarding nothing. -/
theorem c2_seven_bag_runs_perm :
    (∀ (rand : Nat → List Nat) (ops : List BagOp) (k : Nat),
        7 * (k + 1) ≤ (runBag (mkSevenBag rand) ops).1.length →
        (((runBag (mkSevenBag rand) ops).1.drop (7 * k)).take 7).Perm allPieces
          ∧ (((runBag (mkSevenBag rand) ops).1.drop (7 * k)).take 7).Nodup
          ∧ ∀ t : PieceType, t ∈ ((runBag (mkSevenBag rand) ops).1.drop (7 * k)).take 7)
    ∧ (∀ (s : SevenBag) (ops : List BagOp) (k : Nat),
        7 * (k + 1) ≤ (runBag (bagReset s) ops).1.length →
        (((runBag (bagReset s) ops).1.drop (7 * k)).take 7).Perm allPieces)
    ∧ (∀ s : SevenBag,
        (refillBag s).pieces = s.pieces ++ fisherYates allPieces (s.rand s.refills)
        ∧ (fisherYates allPieces (s.rand s.refills)).Perm allPieces) := by
  refine ⟨?_, ?_, ?_⟩
  · intro rand ops k hlen
    have hp := run_block_perm (mkSevenBag rand) (isBagConcat_mk rand) ops k hlen
    refine ⟨hp, hp.nodup_iff.mpr (by decide), fun t => hp.mem_iff.mpr ?_⟩
    cases t <;> simp [allPieces]
  · intro s ops k hlen
    exact run_block_perm (bagReset s) (isBagConcat_reset s) ops k hlen
  · intro s
    exact ⟨refillBag_pieces s, fisherYates_perm _⟩

/-- C2, witness: 14 draws from a concrete bag; the second aligned run of 7
is a permutation of the kinds. -/
theorem c2_seven_bag_runs_perm_witness :
    7 * (1 + 1) ≤ (runBag (mkSevenBag zeroRand) (List.replicate 14 .nextOp)).1.length
    ∧ (((runBag (mkSevenBag zeroRand) (List.replicate 14 .nextOp)).1.drop (7 * 1)).take 7).Perm
        allPieces :=
  ⟨by decide,
    (c2_seven_bag_runs_perm.1 zeroRand (List.replicate 14 .nextOp) 1 (by decide)).1⟩

/-- The peek refill loop always reaches a queue long enough for the
request, because each refill adds 7. -/
theorem bagPeekGo_length (count : Nat) :
    ∀ (f : Nat) (s : SevenBag), count ≤ s.pieces.length + 7 * f →
      count ≤ (bagPeekGo f s count).pieces.length := by
  intro f
  induction f with
  | zero => intro s h; simpa using h
  | succ m ih =>
    intro s h
    rw [bagPeekGo]
    split
    · exact ih (refillBag s) (by rw [refillBag_length]; omega)
    · omega

/-- The peek refill loop is the identity once the queue is long enough. -/
theorem bagPeekGo_of_le (f count : Nat) (s : SevenBag) (h : count ≤ s.pieces.length) :
    bagPeekGo f s count = s := by
  cases f with
  | zero => rfl
  | succ m => rw [bagPeekGo, if_neg (by omega)]

/-- n next() draws from a queue holding at least n kinds deal exactly its
first n kinds, in order. -/
theorem run_next_take : ∀ (n : Nat) (s : SevenBag), n ≤ s.pieces.length →
    (runBag s (List.replicate n .nextOp)).1 = s.pieces.take n := by
  intro n
  induction n with
  | zero => intro s _; simp [runBag]
  | succ m ih =>
    intro s h
    cases hp : s.pieces with
    | nil => rw [hp] at h; simp at h
    | cons a t =>
      have hemp : s.pieces.isEmpty = false := by simp [hp]
      have hnext : bagNext s = (a, { s with pieces := t }) := by
        simp [bagNext, hemp, hp]
      have ht : m ≤ t.length := by
        rw [hp] at h
        simpa using h
      have := ih { s with pieces := t } ht
      simp [List.replicate_succ, runBag, hnext, this, hp]

/-- C8: peek(n) followed by n next() calls deals exactly the peeked
sequence in order — including when satisfying the peek spans several
refills — and peek consumes nothing: repeating the peek returns the same
sequence and the same state. -/
theorem c8_peek_next_agreement (s : SevenBag) (n : Nat) :
    (runBag (bagPeek s n).2 (List.replicate n .nextOp)).1 = (bagPeek s n).1
    ∧ bagPeek (bagPeek s n).2 n = bagPeek s n := by
  have hlen : n ≤ (bagPeekGo n s n).pieces.length :=
    bagPeekGo_length n n s (by omega)
  constructor
  · exact run_next_take n (bagPeekGo n s n) hlen
  · show bagPeek (bagPeekGo n s n) n = _
    simp [bagPeek, bagPeekGo_of_le n n _ hlen]

end TetrisSim
